import Mathlib

set_option linter.unusedVariables false
set_option maxRecDepth 2048

namespace Etrt

/-- Modelled from the spec: the device execution engine of the et-platform
runtime is a native module that is not under src (only the Python binding
surface, its tests and examples are).  Device memory, as seen through the
DeviceLayer DMA primitives of spec section 2, is a total map from byte
address to byte value; writeBytes stores a list of bytes at consecutive
addresses starting at dst. -/
def writeBytes : (Nat → Nat) → Nat → List Nat → (Nat → Nat)
  | mem, _, [] => mem
  | mem, dst, b :: bs => writeBytes (fun a => if a = dst then b else mem a) (dst + 1) bs

/-- Modelled from the spec: reading n consecutive bytes of device memory
starting at src, the device side of a device-to-host DMA transfer. -/
def readBytes : (Nat → Nat) → Nat → Nat → List Nat
  | _, _, 0 => []
  | mem, src, n + 1 => mem src :: readBytes mem (src + 1) n

theorem writeBytes_lt (bs : List Nat) :
    ∀ (mem : Nat → Nat) (dst a : Nat), a < dst → writeBytes mem dst bs a = mem a := by
  induction bs with
  | nil => intro mem dst a h; rfl
  | cons b bs ih =>
      intro mem dst a h
      show writeBytes (fun x => if x = dst then b else mem x) (dst + 1) bs a = mem a
      rw [ih _ (dst + 1) a (Nat.lt_succ_of_lt h)]
      simp [Nat.ne_of_lt h]

theorem readBytes_writeBytes (data : List Nat) :
    ∀ (mem : Nat → Nat) (dst : Nat),
      readBytes (writeBytes mem dst data) dst data.length = data := by
  induction data with
  | nil => intro mem dst; rfl
  | cons b bs ih =>
      intro mem dst
      show readBytes (writeBytes (fun x => if x = dst then b else mem x) (dst + 1) bs)
             dst (bs.length + 1) = b :: bs
      show writeBytes (fun x => if x = dst then b else mem x) (dst + 1) bs dst ::
             readBytes (writeBytes (fun x => if x = dst then b else mem x) (dst + 1) bs)
               (dst + 1) bs.length = b :: bs
      rw [writeBytes_lt bs _ (dst + 1) dst (Nat.lt_succ_self dst)]
      simp [ih]

theorem writeBytes_append (l1 l2 : List Nat) :
    ∀ (mem : Nat → Nat) (dst : Nat),
      writeBytes mem dst (l1 ++ l2)
        = writeBytes (writeBytes mem dst l1) (dst + l1.length) l2 := by
  induction l1 with
  | nil => intro mem dst; simp [writeBytes]
  | cons b bs ih =>
      intro mem dst
      show writeBytes (fun x => if x = dst then b else mem x) (dst + 1) (bs ++ l2)
             = writeBytes (writeBytes mem dst (b :: bs)) (dst + (bs.length + 1)) l2
      rw [ih]
      show writeBytes (writeBytes (fun x => if x = dst then b else mem x) (dst + 1) bs)
             (dst + 1 + bs.length) l2 = _
      have harith : dst + 1 + bs.length = dst + (bs.length + 1) := by omega
      rw [harith]
      rfl

/-- Modelled from the spec: DmaInfo, the device-reported DMA constraints of
spec section 3 (max single-transfer element size and max element count),
mirrored from the struct exposed by the binding and exercised in
test_types.test_dma_info. -/
structure DmaInfo where
  max_element_size : Nat
  max_element_count : Nat
deriving DecidableEq, Repr

/-- Modelled from the spec: a host transfer of N bytes is chunked into DMA
elements of at most the reported max element size (spec section 3 and the
round-trip property of section 8).  A degenerate reported size of zero is
clamped to one byte per element so every transfer makes progress. -/
def dmaChunks (m : Nat) : List Nat → List (List Nat)
  | [] => []
  | b :: bs => (b :: bs).take (max 1 m) :: dmaChunks m ((b :: bs).drop (max 1 m))
termination_by l => l.length
decreasing_by
  simp only [List.length_drop, List.length_cons]
  have h1 : 1 ≤ max 1 m := le_max_left 1 m
  omega

/-- Modelled from the spec: issuing the chunk list of one host-to-device
transfer to the device in order, each chunk advancing the destination
address by its length. -/
def writeChunked : (Nat → Nat) → Nat → List (List Nat) → (Nat → Nat)
  | mem, _, [] => mem
  | mem, dst, c :: cs => writeChunked (writeBytes mem dst c) (dst + c.length) cs

theorem writeChunked_dmaChunks_aux (n : Nat) :
    ∀ (data : List Nat), data.length ≤ n →
      ∀ (mem : Nat → Nat) (dst m : Nat),
        writeChunked mem dst (dmaChunks m data) = writeBytes mem dst data := by
  induction n with
  | zero =>
      intro data h mem dst m
      have : data = [] := List.eq_nil_of_length_eq_zero (Nat.le_zero.mp h)
      subst this
      simp [dmaChunks, writeChunked, writeBytes]
  | succ n ih =>
      intro data h mem dst m
      cases data with
      | nil => simp [dmaChunks, writeChunked, writeBytes]
      | cons b bs =>
          rw [dmaChunks]
          show writeChunked (writeBytes mem dst ((b :: bs).take (max 1 m)))
                 (dst + ((b :: bs).take (max 1 m)).length)
                 (dmaChunks m ((b :: bs).drop (max 1 m))) = _
          have hlen : ((b :: bs).drop (max 1 m)).length ≤ n := by
            simp only [List.length_drop, List.length_cons]
            have h1 : 1 ≤ max 1 m := le_max_left 1 m
            have h2 : bs.length + 1 ≤ n + 1 := h
            omega
          rw [ih _ hlen]
          rw [← writeBytes_append]
          rw [List.take_append_drop]

theorem writeChunked_dmaChunks (data : List Nat) (mem : Nat → Nat) (dst m : Nat) :
    writeChunked mem dst (dmaChunks m data) = writeBytes mem dst data :=
  writeChunked_dmaChunks_aux data.length data (Nat.le_refl _) mem dst m

theorem getD_concat_self {α : Type} (l : List α) (x : α) (t : List α) (d : α) :
    (l ++ x :: t).getD l.length d = x := by
  induction l with
  | nil => rfl
  | cons a l ih => simpa using ih

theorem getD_set_self (l : List Bool) :
    ∀ (k : Nat) (a d : Bool), (l.set k a).getD k d = if k < l.length then a else d := by
  induction l with
  | nil => intro k a d; simp [List.getD]
  | cons x xs ih =>
      intro k a d
      cases k with
      | zero => simp [List.set]
      | succ k => simpa [List.set] using ih k a d

/-- Modelled from the spec: the resolution states of an Event (spec section
3: pending, then exactly one of completed or failed; immutable once
resolved). -/
inductive EvState
  | pending
  | completed
  | failed
deriving DecidableEq, Repr

/-- Modelled from the spec: KernelLaunchOptions, the value object of spec
section 3 with shire mask, barrier flag and flush-L3 flag, as exposed by
the binding and exercised in test_kernel_launch_options. -/
structure KernelLaunchOptions where
  shire_mask : Nat
  barrier : Bool
  flush_l3 : Bool
deriving DecidableEq, Repr

def KernelLaunchOptions.set_shire_mask (o : KernelLaunchOptions) (m : Nat) :
    KernelLaunchOptions :=
  { o with shire_mask := m }

def KernelLaunchOptions.set_barrier (o : KernelLaunchOptions) (b : Bool) :
    KernelLaunchOptions :=
  { o with barrier := b }

def KernelLaunchOptions.set_flush_l3 (o : KernelLaunchOptions) (b : Bool) :
    KernelLaunchOptions :=
  { o with flush_l3 := b }

/-- Modelled from the spec: the memset_params argument block of the memops
kernel, laid out exactly as the struct documented in
test_runtime.test_kernel_execution (op_type, value, dst_ptr, size). -/
structure KernelParams where
  op_type : Nat
  value : Nat
  dst_ptr : Nat
  size : Nat
deriving DecidableEq, Repr

def GGML_ET_MEMOP_MEMSET : Nat := 0

/-- Modelled from the spec: the device-side effect of launching the memops
kernel of test_kernel_execution: a MEMSET operation stores the low byte of
value into size consecutive bytes starting at dst_ptr; any other op leaves
memory unchanged here. -/
def execKernel (mem : Nat → Nat) (p : KernelParams) : Nat → Nat :=
  if p.op_type = GGML_ET_MEMOP_MEMSET then
    writeBytes mem p.dst_ptr (List.replicate p.size (p.value % 256))
  else
    mem

/-- Modelled from the spec: the synchronous error taxonomy of spec section 7
(ValidationError and ResourceExhaustion cases raised at the call site). -/
inductive RtErr
  | UnknownKernel
  | OutOfDeviceMemory
  | InvalidBuffer
  | StreamBusy
deriving DecidableEq, Repr

/-- Modelled from the spec: the per-device runtime state the native engine
keeps for one stream executed in FIFO order (spec sections 4.1, 4.3, 4.4):
device memory, the monotonically allocated event table, the KernelManager
table of loaded kernel ids (index = kernel id, entry = still loaded), the
next free code address, and the device-reported DmaInfo. -/
structure RtState where
  mem : Nat → Nat
  events : List EvState
  kernels : List Bool
  codeNext : Nat
  dmaInfo : DmaInfo

def rtInit : RtState :=
  { mem := fun _ => 0
    events := []
    kernels := []
    codeNext := 0
    dmaInfo := { max_element_size := 32 * 1024 * 1024, max_element_count := 4 } }

def eventState (s : RtState) (e : Nat) : EvState :=
  s.events.getD e EvState.pending

/-- Modelled from the spec: memcpy_host_to_device submits a host-to-device
copy of size bytes of data on the stream, chunked per the DmaInfo limit,
and returns the new state together with the Event bound to the command;
the single-stream FIFO engine drains the command, so the event is recorded
as completed (spec sections 4.1 and 8). -/
def memcpy_host_to_device (s : RtState) (stream : Nat) (data : List Nat)
    (dst size : Nat) (barrier : Bool) : RtState × Nat :=
  ({ s with
      mem := writeChunked s.mem dst (dmaChunks s.dmaInfo.max_element_size (data.take size))
      events := s.events ++ [EvState.completed] },
   s.events.length)

/-- Modelled from the spec: memcpy_device_to_host submits a device-to-host
copy of size bytes from src on the stream and returns the new state, the
Event bound to the command, and the bytes delivered to the host buffer. -/
def memcpy_device_to_host (s : RtState) (stream : Nat) (src size : Nat)
    (barrier : Bool) : RtState × Nat × List Nat :=
  ({ s with events := s.events ++ [EvState.completed] },
   s.events.length,
   readBytes s.mem src size)

/-- Modelled from the spec: load_code enqueues an asynchronous code load on
the stream and immediately returns the new state, the load Event, a fresh
KernelId and the load address (spec section 4.4); kernel ids are allocated
monotonically as indices into the KernelManager table. -/
def load_code (s : RtState) (stream : Nat) (image : List Nat) :
    RtState × Nat × Nat × Nat :=
  ({ s with
      kernels := s.kernels ++ [true]
      events := s.events ++ [EvState.completed]
      codeNext := s.codeNext + image.length },
   s.events.length, s.kernels.length, s.codeNext)

/-- Modelled from the spec: unload_code transitions the kernel Loaded to
Unloaded in the KernelManager table (spec section 4.4). -/
def unload_code (s : RtState) (k : Nat) : RtState :=
  { s with kernels := s.kernels.set k false }

/-- Modelled from the spec: kernel_launch validates the kernel id against
the KernelManager table and fails synchronously with UnknownKernel when
the id was never loaded or is no longer loaded; otherwise it enqueues the
execution command honoring KernelLaunchOptions and returns the Event bound
to it (spec section 4.4). -/
def kernel_launch (s : RtState) (stream k : Nat) (p : KernelParams)
    (opts : KernelLaunchOptions) : Except RtErr (RtState × Nat) :=
  if s.kernels.getD k false then
    Except.ok
      ({ s with
          mem := execKernel s.mem p
          events := s.events ++ [EvState.completed] },
       s.events.length)
  else
    Except.error RtErr.UnknownKernel

/-- Modelled from the spec: one entry of the device-visible activity trace
of a single stream (spec section 4.1): operation i starts its
device-visible effects (issued) or its completion becomes durable
(complete). -/
inductive TraceEntry
  | issued (i : Nat)
  | complete (i : Nat)
deriving DecidableEq, Repr

/-- Returns true when the first occurrence of a in the list strictly
precedes the first occurrence of b (and b does occur after it). -/
def firstBefore {α : Type} [DecidableEq α] : List α → α → α → Bool
  | [], _, _ => false
  | x :: xs, a, b =>
    if x = b then false
    else if x = a then decide (b ∈ xs)
    else firstBefore xs a b

/-- Modelled from the spec: the StreamEngine of spec section 4.1 processing
the submitted operations of one stream in order, given each operation's
barrier flag.  Operations are numbered from k; outs is the list of issued
but not yet durably completed operations.  A non-barriered operation is
issued immediately and may remain outstanding; a barriered operation
forces a full stream drain (completions of all outstanding operations, in
FIFO order) before it is issued; destroying the stream at the end drains
the remainder. -/
def runFrom (k : Nat) (outs : List Nat) : List Bool → List TraceEntry
  | [] => outs.map TraceEntry.complete
  | b :: rest =>
    if b then
      outs.map TraceEntry.complete ++ TraceEntry.issued k :: runFrom (k + 1) [k] rest
    else
      TraceEntry.issued k :: runFrom (k + 1) (outs ++ [k]) rest

/-- Modelled from the spec: the full device-visible trace of a stream whose
operations carry the given barrier flags, submitted in order starting from
operation 0. -/
def runEngine (flags : List Bool) : List TraceEntry :=
  runFrom 0 [] flags

theorem firstBefore_append_left_mem {α : Type} [DecidableEq α] (l : List α) :
    ∀ (t : List α) (a b : α), a ∈ l → b ∉ l → b ∈ t →
      firstBefore (l ++ t) a b = true := by
  induction l with
  | nil => intro t a b ha hb hbt; exact absurd ha (List.not_mem_nil a)
  | cons x xs ih =>
      intro t a b ha hb hbt
      have hxb : x ≠ b := fun h => hb (h ▸ List.mem_cons_self x xs)
      show firstBefore (x :: (xs ++ t)) a b = true
      rw [firstBefore]
      rw [if_neg hxb]
      by_cases hxa : x = a
      · rw [if_pos hxa]
        simp [List.mem_append, hbt]
      · rw [if_neg hxa]
        have ha' : a ∈ xs := by
          cases List.mem_cons.mp ha with
          | inl h => exact absurd h.symm hxa
          | inr h => exact h
        exact ih t a b ha' (fun h => hb (List.mem_cons_of_mem x h)) hbt

theorem firstBefore_append_left_skip {α : Type} [DecidableEq α] (l : List α) :
    ∀ (t : List α) (a b : α), a ∉ l → b ∉ l →
      firstBefore (l ++ t) a b = firstBefore t a b := by
  induction l with
  | nil => intro t a b _ _; rfl
  | cons x xs ih =>
      intro t a b ha hb
      have hxb : x ≠ b := fun h => hb (h ▸ List.mem_cons_self x xs)
      have hxa : x ≠ a := fun h => ha (h ▸ List.mem_cons_self x xs)
      show firstBefore (x :: (xs ++ t)) a b = firstBefore t a b
      rw [firstBefore, if_neg hxb, if_neg hxa]
      exact ih t a b (fun h => ha (List.mem_cons_of_mem x h))
        (fun h => hb (List.mem_cons_of_mem x h))

theorem issued_mem_runFrom (flags : List Bool) :
    ∀ (k : Nat) (outs : List Nat) (m : Nat), k ≤ m → m < k + flags.length →
      TraceEntry.issued m ∈ runFrom k outs flags := by
  induction flags with
  | nil =>
      intro k outs m h1 h2
      simp only [List.length_nil] at h2
      omega
  | cons b rest ih =>
      intro k outs m h1 h2
      rw [runFrom]
      by_cases hm : m = k
      · subst hm
        cases b with
        | true => simp
        | false => simp
      · have hk1 : k + 1 ≤ m := by omega
        have hk2 : m < (k + 1) + rest.length := by
          simp only [List.length_cons] at h2; omega
        cases b with
        | true =>
            rw [if_pos rfl]
            refine List.mem_append_right _ ?_
            exact List.mem_cons_of_mem _ (ih (k + 1) [k] m hk1 hk2)
        | false =>
            rw [if_neg Bool.false_ne_true]
            exact List.mem_cons_of_mem _ (ih (k + 1) (outs ++ [k]) m hk1 hk2)

theorem getD_true_lt (l : List Bool) :
    ∀ (j : Nat), l.getD j false = true → j < l.length := by
  induction l with
  | nil => intro j h; simp [List.getD] at h
  | cons x xs ih =>
      intro j h
      cases j with
      | zero => simp
      | succ j =>
          have := ih j (by simpa using h)
          simp only [List.length_cons]
          omega

theorem barrier_drain_aux (flags : List Bool) :
    ∀ (k : Nat) (outs : List Nat), (∀ m ∈ outs, m < k) →
      ∀ (j : Nat), flags.getD j false = true →
        ∀ (i : Nat), (i ∈ outs ∨ (k ≤ i ∧ i < k + j)) →
          firstBefore (runFrom k outs flags)
            (TraceEntry.complete i) (TraceEntry.issued (k + j)) = true := by
  induction flags with
  | nil => intro k outs hout j hj i hi; simp [List.getD] at hj
  | cons b rest ih =>
      intro k outs hout j hj i hi
      rw [runFrom]
      cases j with
      | zero =>
          have hb : b = true := by simpa using hj
          subst hb
          rw [if_pos rfl]
          have hiouts : i ∈ outs := by
            cases hi with
            | inl h => exact h
            | inr h => omega
          refine firstBefore_append_left_mem _ _ _ _ ?_ ?_ ?_
          · exact List.mem_map_of_mem TraceEntry.complete hiouts
          · intro hmem
            rcases List.mem_map.mp hmem with ⟨y, _, hy⟩
            exact TraceEntry.noConfusion hy
          · simp
      | succ j =>
          have hj' : rest.getD j false = true := by simpa using hj
          have hjlen : j < rest.length := getD_true_lt rest j hj'
          cases b with
          | true =>
              rw [if_pos rfl]
              have htarget : k + (j + 1) = (k + 1) + j := by omega
              by_cases hiouts : i ∈ outs
              · refine firstBefore_append_left_mem _ _ _ _ ?_ ?_ ?_
                · exact List.mem_map_of_mem TraceEntry.complete hiouts
                · intro hmem
                  rcases List.mem_map.mp hmem with ⟨y, _, hy⟩
                  exact TraceEntry.noConfusion hy
                · refine List.mem_cons_of_mem _ ?_
                  rw [htarget]
                  exact issued_mem_runFrom rest (k + 1) [k] ((k + 1) + j)
                    (by omega) (by omega)
              · have hrange : k ≤ i ∧ i < k + (j + 1) := by
                  cases hi with
                  | inl h => exact absurd h hiouts
                  | inr h => exact h
                have hstep : outs.map TraceEntry.complete ++ TraceEntry.issued k ::
                      runFrom (k + 1) [k] rest
                    = (outs.map TraceEntry.complete ++ [TraceEntry.issued k]) ++
                      runFrom (k + 1) [k] rest := by
                  simp
                rw [hstep]
                rw [firstBefore_append_left_skip]
                · rw [htarget]
                  refine ih (k + 1) [k] ?_ j hj' i ?_
                  · intro m hm
                    simp only [List.mem_singleton] at hm
                    omega
                  · by_cases hik : i = k
                    · exact Or.inl (by simp [hik])
                    · exact Or.inr (by omega)
                · intro hmem
                  rcases List.mem_append.mp hmem with hmem | hmem
                  · rcases List.mem_map.mp hmem with ⟨y, hy1, hy2⟩
                    have : y = i := by
                      injection hy2
                    exact absurd (this ▸ hout y hy1) (by omega)
                  · simp only [List.mem_singleton] at hmem
                    exact TraceEntry.noConfusion hmem
                · intro hmem
                  rcases List.mem_append.mp hmem with hmem | hmem
                  · rcases List.mem_map.mp hmem with ⟨y, _, hy2⟩
                    exact TraceEntry.noConfusion hy2
                  · simp only [List.mem_singleton] at hmem
                    have : k + (j + 1) = k := by injection hmem
                    omega
          | false =>
              rw [if_neg Bool.false_ne_true]
              show firstBefore (TraceEntry.issued k :: runFrom (k + 1) (outs ++ [k]) rest)
                  (TraceEntry.complete i) (TraceEntry.issued (k + (j + 1))) = true
              rw [firstBefore]
              rw [if_neg (by intro h; rw [TraceEntry.issued.injEq] at h; omega)]
              rw [if_neg (by intro h; exact TraceEntry.noConfusion h)]
              have htarget : k + (j + 1) = (k + 1) + j := by omega
              rw [htarget]
              refine ih (k + 1) (outs ++ [k]) ?_ j hj' i ?_
              · intro m hm
                rcases List.mem_append.mp hm with hm | hm
                · exact Nat.lt_succ_of_lt (hout m hm)
                · simp only [List.mem_singleton] at hm
                  omega
              · cases hi with
                | inl h => exact Or.inl (List.mem_append_left _ h)
                | inr h =>
                    by_cases hik : i = k
                    · exact Or.inl (List.mem_append_right _ (by simp [hik]))
                    · exact Or.inr (by omega)

/-- Modelled from the spec: the DeviceErrorCode enum exposed by the binding;
the members are the ones asserted in test_device_error_code_enum and named
in the DeviceFault taxonomy of spec section 7. -/
inductive DeviceErrorCode
  | KERNEL_LAUNCH_EXCEPTION
  | DMA_INVALID_ADDRESS
  | UNKNOWN
deriving DecidableEq, Repr

/-- Modelled from the spec: the StreamError record of spec section 3
(error code, device, optional stream, optional shire mask); the field
names follow the callback in examples/async_operations.py. -/
structure StreamError where
  error_code : DeviceErrorCode
  device : Nat
  stream : Option Nat
  cm_shire_mask : Option Nat
deriving DecidableEq, Repr

/-- Modelled from the spec: the native zero-argument StreamError constructor
is not under src; spec section 3 lists the fields but no default, so the
default error code UNKNOWN is taken from the repository's own
test_stream_error. -/
def mkStreamError : StreamError :=
  { error_code := DeviceErrorCode.UNKNOWN, device := 0, stream := none, cm_shire_mask := none }

/-- Modelled from the spec: the one-argument StreamError constructor of
test_stream_error, storing exactly the given device error code. -/
def mkStreamErrorWithCode (c : DeviceErrorCode) : StreamError :=
  { error_code := c, device := 0, stream := none, cm_shire_mask := none }

/-- Modelled from the spec: the ErrorReporter state of spec section 4.5:
the per-stream queues of accumulated stream errors, whether a stream-error
callback is registered in the single callback slot, and the log of
callback invocations (event id and error) made by the notification
thread. -/
structure ErrState where
  queues : Nat → List StreamError
  callbackRegistered : Bool
  callbackLog : List (Nat × StreamError)

/-- Modelled from the spec: a device-originated fault on a stream is
accumulated into that stream's queue and, when a callback is registered,
mirrored to the callback exactly once (spec sections 4.5 and 7: never
silently dropped, faults accumulate even with no callback registered). -/
def reportFault (st : ErrState) (stream eventId : Nat) (err : StreamError) : ErrState :=
  { st with
      queues := fun s => if s = stream then st.queues stream ++ [err] else st.queues s
      callbackLog :=
        if st.callbackRegistered then st.callbackLog ++ [(eventId, err)]
        else st.callbackLog }

/-- Modelled from the spec: retrieve_stream_errors returns the accumulated
per-stream error records and drains the queue (spec section 4.5). -/
def retrieve_stream_errors (st : ErrState) (stream : Nat) :
    List StreamError × ErrState :=
  (st.queues stream,
   { st with queues := fun s => if s = stream then [] else st.queues s })

/-- Modelled from the spec: registering or clearing the single stream-error
callback slot (spec section 4.5: replace semantics, none disables). -/
def set_on_stream_errors_callback (st : ErrState) (registered : Bool) : ErrState :=
  { st with callbackRegistered := registered }

/-- Modelled from the spec: one live device allocation of the MemoryManager
(spec section 4.2): base address, size and the alignment that was
requested for it. -/
structure Alloc where
  base : Nat
  size : Nat
  align : Nat
deriving DecidableEq, Repr

/-- Two allocations occupy disjoint address ranges. -/
def disjointAlloc (x y : Alloc) : Prop :=
  x.base + x.size ≤ y.base ∨ y.base + y.size ≤ x.base

instance (x y : Alloc) : Decidable (disjointAlloc x y) := by
  unfold disjointAlloc
  exact inferInstance

/-- Rounds a up to the next multiple of al (identity when al divides a or
when al is zero). -/
def alignUp (a al : Nat) : Nat :=
  if a % al = 0 then a else a + (al - a % al)

theorem alignUp_le (a al : Nat) : a ≤ alignUp a al := by
  unfold alignUp
  by_cases h : a % al = 0
  · simp [h]
  · simp [h]

theorem alignUp_dvd (a al : Nat) (h : 0 < al) : al ∣ alignUp a al := by
  unfold alignUp
  by_cases hm : a % al = 0
  · simp only [hm, if_pos]
    exact Nat.dvd_of_mod_eq_zero hm
  · rw [if_neg hm]
    have hmod := Nat.div_add_mod a al
    have hlt : a % al < al := Nat.mod_lt a h
    refine ⟨a / al + 1, ?_⟩
    have hms : al * (a / al + 1) = al * (a / al) + al := Nat.mul_succ al (a / al)
    omega

/-- Modelled from the spec: the MemoryManager of spec section 4.2 as a bump
allocator over the device's addressable range (placement strategy is an
internal choice there): the device memory size, the bump pointer, and the
list of live allocations. -/
structure MemMgr where
  memory_size : Nat
  next : Nat
  live : List Alloc
deriving DecidableEq, Repr

/-- Modelled from the spec: malloc_device places the new buffer at the bump
pointer rounded up to the requested alignment and fails with
OutOfDeviceMemory when the device allocator cannot satisfy size plus
alignment within the addressable range (spec section 4.2). -/
def malloc_device (m : MemMgr) (size align : Nat) : Except RtErr (Nat × MemMgr) :=
  let base := alignUp m.next align
  if base + size ≤ m.memory_size then
    Except.ok
      (base,
       { m with
          next := base + size
          live := { base := base, size := size, align := align } :: m.live })
  else
    Except.error RtErr.OutOfDeviceMemory

/-- Modelled from the spec: free_device removes the live allocation with the
given base and fails with InvalidBuffer on double free or unknown buffer
(spec section 4.2; no reuse, lifetime fully caller managed). -/
def free_device (m : MemMgr) (base : Nat) : Except RtErr MemMgr :=
  if m.live.any (fun a => a.base == base) then
    Except.ok { m with live := m.live.filter (fun a => a.base != base) }
  else
    Except.error RtErr.InvalidBuffer

/-- One MemoryManager API call of a caller-chosen sequence. -/
inductive MmCall
  | malloc (size align : Nat)
  | free (base : Nat)
deriving DecidableEq, Repr

/-- Runs a sequence of MemoryManager calls, ignoring the result of failed
calls (a failed call leaves the allocator state unchanged). -/
def runCalls (m : MemMgr) : List MmCall → MemMgr
  | [] => m
  | MmCall.malloc size align :: cs =>
      match malloc_device m size align with
      | Except.ok r => runCalls r.2 cs
      | Except.error _ => runCalls m cs
  | MmCall.free base :: cs =>
      match free_device m base with
      | Except.ok m2 => runCalls m2 cs
      | Except.error _ => runCalls m cs

def mmInit (memSize : Nat) : MemMgr :=
  { memory_size := memSize, next := 0, live := [] }

/-- The allocator invariant: every live allocation lies below the bump
pointer, live allocations are pairwise disjoint, and every live
allocation's base honors its requested alignment (for meaningful, nonzero
alignments). -/
def MmInv (m : MemMgr) : Prop :=
  (∀ a ∈ m.live, a.base + a.size ≤ m.next) ∧
  m.live.Pairwise disjointAlloc ∧
  (∀ a ∈ m.live, 0 < a.align → a.align ∣ a.base)

theorem mmInv_malloc (m : MemMgr) (size align : Nat) (b : Nat) (m2 : MemMgr)
    (hInv : MmInv m) (h : malloc_device m size align = Except.ok (b, m2)) :
    MmInv m2 ∧ (0 < align → align ∣ b) := by
  unfold malloc_device at h
  by_cases hfit : alignUp m.next align + size ≤ m.memory_size
  · rw [if_pos hfit] at h
    have hb : b = alignUp m.next align := by
      injection h with h1
      injection h1 with hl hr
      exact hl.symm
    have hm2 : m2 = { m with
        next := alignUp m.next align + size
        live := { base := alignUp m.next align, size := size, align := align } :: m.live } := by
      injection h with h1
      injection h1 with hl hr
      exact hr.symm
    obtain ⟨hBound, hDisj, hAlign⟩ := hInv
    subst hb hm2
    refine ⟨⟨?_, ?_, ?_⟩, ?_⟩
    · intro a ha
      rcases List.mem_cons.mp ha with ha | ha
      · subst ha; exact Nat.le_refl _
      · have h1 := hBound a ha
        have h2 := alignUp_le m.next align
        show a.base + a.size ≤ alignUp m.next align + size
        omega
    · refine List.Pairwise.cons ?_ hDisj
      intro a ha
      have hub := hBound a ha
      have hle := alignUp_le m.next align
      right
      simp only
      omega
    · intro a ha hpos
      rcases List.mem_cons.mp ha with ha | ha
      · subst ha
        exact alignUp_dvd m.next align hpos
      · exact hAlign a ha hpos
    · intro hpos
      exact alignUp_dvd m.next align hpos
  · rw [if_neg hfit] at h
    exact absurd h (by intro hc; exact Except.noConfusion hc)

theorem mmInv_free (m : MemMgr) (base : Nat) (m2 : MemMgr)
    (hInv : MmInv m) (h : free_device m base = Except.ok m2) :
    MmInv m2 := by
  unfold free_device at h
  by_cases hmem : m.live.any (fun a => a.base == base)
  · rw [if_pos hmem] at h
    have hm2 : m2 = { m with live := m.live.filter (fun a => a.base != base) } := by
      injection h with h1
      exact h1.symm
    obtain ⟨hBound, hDisj, hAlign⟩ := hInv
    subst hm2
    refine ⟨?_, ?_, ?_⟩
    · intro a ha
      exact hBound a (List.mem_of_mem_filter ha)
    · exact List.Pairwise.filter _ hDisj
    · intro a ha hpos
      exact hAlign a (List.mem_of_mem_filter ha) hpos
  · rw [if_neg hmem] at h
    exact absurd h (by intro hc; exact Except.noConfusion hc)

theorem mmInv_runCalls (calls : List MmCall) :
    ∀ (m : MemMgr), MmInv m → MmInv (runCalls m calls) := by
  induction calls with
  | nil => intro m h; exact h
  | cons c cs ih =>
      intro m h
      cases c with
      | malloc size align =>
          show MmInv (runCalls m (MmCall.malloc size align :: cs))
          rw [runCalls]
          cases hcall : malloc_device m size align with
          | ok r =>
              exact ih r.2 (mmInv_malloc m size align r.1 r.2 h (by rw [hcall])).1
          | error e => exact ih m h
      | free base =>
          show MmInv (runCalls m (MmCall.free base :: cs))
          rw [runCalls]
          cases hcall : free_device m base with
          | ok m2 => exact ih m2 (mmInv_free m base m2 h hcall)
          | error e => exact ih m h

theorem mmInv_init (memSize : Nat) : MmInv (mmInit memSize) := by
  refine ⟨?_, ?_, ?_⟩
  · intro a ha; exact absurd ha (List.not_mem_nil a)
  · exact List.Pairwise.nil
  · intro a ha; exact absurd ha (List.not_mem_nil a)

/-- Modelled from the spec: one entry of the EventTable of spec section 4.3
for an in-flight operation: the time at which the underlying device
operation resolves, and whether it resolves successfully (completed) or
with a failure. -/
structure TimedEvent where
  resolveTime : Nat
  success : Bool
deriving DecidableEq, Repr

/-- Modelled from the spec: the state of an event as observable at a given
time: pending before its resolve time, then completed or failed forever
after (immutable once resolved, spec section 3). -/
def eventStateAt (ev : TimedEvent) (now : Nat) : EvState :=
  if ev.resolveTime ≤ now then
    (if ev.success then EvState.completed else EvState.failed)
  else
    EvState.pending

/-- Modelled from the spec: wait_for_event blocks the calling thread until
the event resolves or the timeout elapses (spec section 4.3).  The result
is the returned bool (false exactly on timeout) together with the time at
which the call returns: the resolve time when the event resolves within
the window (immediately, i.e. the call time, when it is already
resolved), or the end of the window on timeout.  Waiting never modifies
the event: a timed-out wait only abandons the wait. -/
def wait_for_event (ev : TimedEvent) (now timeout : Nat) : Bool × Nat :=
  if ev.resolveTime ≤ now + timeout then
    (true, max now ev.resolveTime)
  else
    (false, now + timeout)

/-- Modelled from the spec: poll_event, the non-blocking query of an
event's current state (spec section 4.3). -/
def poll_event (ev : TimedEvent) (now : Nat) : EvState :=
  eventStateAt ev now

/-- The __all__ export list of etrt/__init__.py, in source order. -/
def etrt_all : List String :=
  ["RuntimeError",
   "EventId", "StreamId", "DeviceId", "KernelId", "DeviceBuffer",
   "Options", "get_default_options",
   "DeviceErrorCode", "FormFactor", "ArchRevision",
   "ErrorContext", "StreamError", "LoadCodeResult", "DeviceProperties",
   "UserTrace", "DmaInfo", "MemcpyList", "KernelLaunchOptions",
   "SysEmuOptions", "IDeviceLayer",
   "create_pcie_device_layer", "create_sysemu_device_layer",
   "Runtime"]

/-- The four identifier wrapper-type names of the claim. -/
def idWrapperNames : List String :=
  ["EventId", "StreamId", "DeviceId", "KernelId"]

/-- Modelled from the spec: the attribute names the native extension module
actually defines (the module itself is not under src).  Per spec section 9
and test_types.test_id_types, EventId, StreamId, DeviceId and KernelId are
narrowed to plain integers at the binding boundary and exist as no
attributes of the module; every other public name of the package is
defined. -/
def etrtModuleAttrs : List String :=
  etrt_all.filter (fun n => !(idWrapperNames.contains n))

theorem kernel_launch_fresh (s : RtState) (stream : Nat) (img : List Nat)
    (p : KernelParams) (opts : KernelLaunchOptions) :
    kernel_launch (load_code s stream img).1 stream (load_code s stream img).2.2.1 p opts
      = Except.ok
          ({ (load_code s stream img).1 with
              mem := execKernel s.mem p
              events := (load_code s stream img).1.events ++ [EvState.completed] },
           (load_code s stream img).1.events.length) := by
  have hk : ((s.kernels ++ [true]).getD s.kernels.length false) = true :=
    getD_concat_self s.kernels true [] false
  simp only [load_code, kernel_launch]
  rw [hk]
  rw [if_pos rfl]

/-- C1: submitting memcpy_host_to_device of N bytes and then
memcpy_device_to_host of the same N bytes as two sequential operations on
the same stream, with the host-to-device transfer chunked per the
device-reported DmaInfo limit, resolves both returned events successfully
and yields host data byte-identical to the original input, for every byte
count N (small or large) and every starting state. -/
theorem memcpy_round_trip (s : RtState) (stream dst : Nat) (data : List Nat)
    (b1 b2 : Bool) :
    (memcpy_device_to_host (memcpy_host_to_device s stream data dst data.length b1).1
        stream dst data.length b2).2.2 = data ∧
    eventState
        (memcpy_device_to_host (memcpy_host_to_device s stream data dst data.length b1).1
          stream dst data.length b2).1
        (memcpy_host_to_device s stream data dst data.length b1).2
      = EvState.completed ∧
    eventState
        (memcpy_device_to_host (memcpy_host_to_device s stream data dst data.length b1).1
          stream dst data.length b2).1
        (memcpy_device_to_host (memcpy_host_to_device s stream data dst data.length b1).1
          stream dst data.length b2).2.1
      = EvState.completed := by
  refine ⟨?_, ?_, ?_⟩
  · show readBytes
        (writeChunked s.mem dst
          (dmaChunks s.dmaInfo.max_element_size (data.take data.length)))
        dst data.length = data
    rw [List.take_length, writeChunked_dmaChunks]
    exact readBytes_writeBytes data s.mem dst
  · show ((s.events ++ [EvState.completed]) ++ [EvState.completed]).getD
        s.events.length EvState.pending = EvState.completed
    rw [List.append_assoc]
    exact getD_concat_self s.events EvState.completed [EvState.completed] EvState.pending
  · show ((s.events ++ [EvState.completed]) ++ [EvState.completed]).getD
        (s.events ++ [EvState.completed]).length EvState.pending = EvState.completed
    exact getD_concat_self (s.events ++ [EvState.completed]) EvState.completed []
      EvState.pending

theorem execKernel_memset (mem : Nat → Nat) (value dst size : Nat) :
    execKernel mem
        { op_type := GGML_ET_MEMOP_MEMSET, value := value, dst_ptr := dst, size := size }
      = writeBytes mem dst (List.replicate size (value % 256)) := by
  unfold execKernel
  rw [if_pos rfl]

theorem memset_scenario_general (s : RtState) (stream dst size value : Nat)
    (img : List Nat) (opts : KernelLaunchOptions) (b : Bool) :
    eventState (load_code s stream img).1 (load_code s stream img).2.1
      = EvState.completed ∧
    ∃ s2 ke,
      kernel_launch (load_code s stream img).1 stream (load_code s stream img).2.2.1
          { op_type := GGML_ET_MEMOP_MEMSET, value := value, dst_ptr := dst, size := size }
          opts
        = Except.ok (s2, ke) ∧
      eventState s2 ke = EvState.completed ∧
      (memcpy_device_to_host s2 stream dst size b).2.2
        = List.replicate size (value % 256) ∧
      eventState (memcpy_device_to_host s2 stream dst size b).1
          (memcpy_device_to_host s2 stream dst size b).2.1 = EvState.completed := by
  constructor
  · show (s.events ++ [EvState.completed]).getD s.events.length EvState.pending
        = EvState.completed
    exact getD_concat_self s.events EvState.completed [] EvState.pending
  · refine ⟨_, _, kernel_launch_fresh s stream img
        { op_type := GGML_ET_MEMOP_MEMSET, value := value, dst_ptr := dst, size := size }
        opts, ?_, ?_, ?_⟩
    · show ((load_code s stream img).1.events ++ [EvState.completed]).getD
          (load_code s stream img).1.events.length EvState.pending = EvState.completed
      exact getD_concat_self _ EvState.completed [] EvState.pending
    · show readBytes
          (execKernel s.mem
            { op_type := GGML_ET_MEMOP_MEMSET, value := value, dst_ptr := dst, size := size })
          dst size = List.replicate size (value % 256)
      rw [execKernel_memset]
      have h := readBytes_writeBytes (List.replicate size (value % 256)) s.mem dst
      rwa [List.length_replicate] at h
    · show (((load_code s stream img).1.events ++ [EvState.completed])
            ++ [EvState.completed]).getD
          ((load_code s stream img).1.events ++ [EvState.completed]).length
          EvState.pending = EvState.completed
      exact getD_concat_self _ EvState.completed [] EvState.pending

/-- C2: after load_code of a memset-style kernel succeeds (its load event
resolves completed), launching that kernel with parameters op MEMSET,
value 0x42, dst a device buffer, size 1024 succeeds, its launch event
resolves completed, and a device-to-host copy of that buffer returns 1024
bytes all equal to 0x42 with its own event also resolved. -/
theorem memset_kernel_scenario (s : RtState) (stream dst : Nat) (img : List Nat)
    (opts : KernelLaunchOptions) (b : Bool) :
    eventState (load_code s stream img).1 (load_code s stream img).2.1
      = EvState.completed ∧
    ∃ s2 ke,
      kernel_launch (load_code s stream img).1 stream (load_code s stream img).2.2.1
          { op_type := GGML_ET_MEMOP_MEMSET, value := 0x42, dst_ptr := dst, size := 1024 }
          opts
        = Except.ok (s2, ke) ∧
      eventState s2 ke = EvState.completed ∧
      (memcpy_device_to_host s2 stream dst 1024 b).2.2 = List.replicate 1024 0x42 ∧
      eventState (memcpy_device_to_host s2 stream dst 1024 b).1
          (memcpy_device_to_host s2 stream dst 1024 b).2.1 = EvState.completed := by
  have h := memset_scenario_general s stream dst 1024 0x42 img opts b
  rwa [show (0x42 : Nat) % 256 = 0x42 from by norm_num] at h

/-- C3: for two operations A then B submitted in that order to the same
stream with the barrier flag set on B, the engine inserts a full stream
drain before issuing B, so B's device-visible effects (its issue) never
occur before A's completion: in the device trace of any submission
sequence, the completion of the operation at any earlier position occurs
strictly before the issue of a later barriered operation. -/
theorem barrier_orders_stream (l1 l2 l3 : List Bool) (bA : Bool) :
    firstBefore (runEngine (l1 ++ bA :: l2 ++ true :: l3))
      (TraceEntry.complete l1.length)
      (TraceEntry.issued (l1.length + 1 + l2.length)) = true := by
  have hassoc : l1 ++ bA :: l2 ++ true :: l3 = (l1 ++ bA :: l2) ++ true :: l3 := by
    simp
  have hlen : (l1 ++ bA :: l2).length = l1.length + 1 + l2.length := by
    simp only [List.length_append, List.length_cons]
    omega
  have hj : (l1 ++ bA :: l2 ++ true :: l3).getD (l1.length + 1 + l2.length) false
      = true := by
    rw [hassoc, ← hlen]
    exact getD_concat_self (l1 ++ bA :: l2) true l3 false
  have h := barrier_drain_aux (l1 ++ bA :: l2 ++ true :: l3) 0 []
    (fun m hm => absurd hm (List.not_mem_nil m))
    (l1.length + 1 + l2.length) hj l1.length
    (Or.inr ⟨Nat.zero_le _, by omega⟩)
  simpa [runEngine] using h

/-- C4: a device-originated fault on a stream is recorded in that stream's
error queue even when no callback is registered; retrieve_stream_errors
returns the accumulated records and drains the queue, so an immediate
second call returns nothing; and when a stream-error callback is
registered the callback fires exactly once for the fault while the fault
still appears in retrieve_stream_errors. -/
theorem stream_error_delivery (q : Nat → List StreamError) (reg : Bool)
    (log : List (Nat × StreamError)) (stream eventId : Nat) (err : StreamError) :
    (retrieve_stream_errors
        (reportFault { queues := q, callbackRegistered := reg, callbackLog := log }
          stream eventId err) stream).1
      = q stream ++ [err] ∧
    (retrieve_stream_errors
        (retrieve_stream_errors
          (reportFault { queues := q, callbackRegistered := reg, callbackLog := log }
            stream eventId err) stream).2 stream).1
      = [] ∧
    (reportFault { queues := q, callbackRegistered := false, callbackLog := log }
        stream eventId err).callbackLog = log ∧
    (reportFault { queues := q, callbackRegistered := true, callbackLog := log }
        stream eventId err).callbackLog = log ++ [(eventId, err)] := by
  refine ⟨?_, ?_, ?_, ?_⟩ <;>
    simp [reportFault, retrieve_stream_errors]

/-- C5: kernel_launch on a kernel id that was never returned by a
successful load_code (the table allocates ids monotonically, so any id at
or past the table length was never returned), or on an id that was already
unloaded by unload_code, fails synchronously at the call site with the
UnknownKernel error and enqueues nothing. -/
theorem launch_unknown_kernel (s : RtState) (stream n k : Nat)
    (p : KernelParams) (opts : KernelLaunchOptions) :
    kernel_launch s stream (s.kernels.length + n) p opts
      = Except.error RtErr.UnknownKernel ∧
    kernel_launch (unload_code s k) stream k p opts
      = Except.error RtErr.UnknownKernel := by
  constructor
  · unfold kernel_launch
    rw [if_neg]
    intro hc
    have := getD_true_lt s.kernels (s.kernels.length + n) hc
    omega
  · show kernel_launch { s with kernels := s.kernels.set k false } stream k p opts = _
    unfold kernel_launch
    have h2 : ((s.kernels.set k false).getD k false) = false := by
      rw [getD_set_self]
      exact ite_self false
    show (if (s.kernels.set k false).getD k false then _ else _) = _
    rw [h2]
    rw [if_neg Bool.false_ne_true]

/-- C6: for every sequence of malloc_device and free_device calls on one
device, the set of simultaneously live allocations stays pairwise
non-overlapping and every live allocation's base honors the alignment
requested for it (for valid, nonzero alignments); in particular a
malloc_device followed by free_device never corrupts subsequent
allocations from the same device. -/
theorem malloc_free_no_corruption (memSize : Nat) (calls : List MmCall) :
    (runCalls (mmInit memSize) calls).live.Pairwise disjointAlloc ∧
    (∀ a ∈ (runCalls (mmInit memSize) calls).live, 0 < a.align → a.align ∣ a.base) := by
  have h := mmInv_runCalls calls (mmInit memSize) (mmInv_init memSize)
  exact ⟨h.2.1, h.2.2⟩

/-- C7: wait_for_event on an event that has already resolved (called at or
after its resolve time) returns immediately, at the call time itself, with
success; polling at that moment returns the same result as at the original
resolution; and every later wait again returns immediately with that same
cached result. -/
theorem wait_resolved_immediate (ev : TimedEvent) (d timeout d2 timeout2 : Nat) :
    wait_for_event ev (ev.resolveTime + d) timeout = (true, ev.resolveTime + d) ∧
    poll_event ev (ev.resolveTime + d) = poll_event ev ev.resolveTime ∧
    wait_for_event ev (ev.resolveTime + d + d2) timeout2
      = (true, ev.resolveTime + d + d2) ∧
    poll_event ev (ev.resolveTime + d + d2) = poll_event ev ev.resolveTime := by
  refine ⟨?_, ?_, ?_, ?_⟩
  · show (if ev.resolveTime ≤ ev.resolveTime + d + timeout
        then ((true : Bool), max (ev.resolveTime + d) ev.resolveTime)
        else ((false : Bool), ev.resolveTime + d + timeout))
        = (true, ev.resolveTime + d)
    rw [if_pos (by omega), max_eq_left (by omega)]
  · show (if ev.resolveTime ≤ ev.resolveTime + d
        then (if ev.success then EvState.completed else EvState.failed)
        else EvState.pending)
        = (if ev.resolveTime ≤ ev.resolveTime
          then (if ev.success then EvState.completed else EvState.failed)
          else EvState.pending)
    rw [if_pos (by omega), if_pos (Nat.le_refl _)]
  · show (if ev.resolveTime ≤ ev.resolveTime + d + d2 + timeout2
        then ((true : Bool), max (ev.resolveTime + d + d2) ev.resolveTime)
        else ((false : Bool), ev.resolveTime + d + d2 + timeout2))
        = (true, ev.resolveTime + d + d2)
    rw [if_pos (by omega), max_eq_left (by omega)]
  · show (if ev.resolveTime ≤ ev.resolveTime + d + d2
        then (if ev.success then EvState.completed else EvState.failed)
        else EvState.pending)
        = (if ev.resolveTime ≤ ev.resolveTime
          then (if ev.success then EvState.completed else EvState.failed)
          else EvState.pending)
    rw [if_pos (by omega), if_pos (Nat.le_refl _)]

/-- C8: wait_for_event returns false when the timeout elapses before the
event resolves (here the operation resolves strictly after the wait
window), and the timeout does not cancel or alter the underlying device
operation: the operation still resolves at its own time, its final state
is queryable at any later time, and a later wait on it succeeds. -/
theorem wait_timeout_no_cancel (now timeout d u : Nat) (success : Bool) :
    wait_for_event { resolveTime := now + timeout + 1 + d, success := success } now timeout
      = (false, now + timeout) ∧
    eventStateAt { resolveTime := now + timeout + 1 + d, success := success }
        (now + timeout + 1 + d + u)
      = (if success then EvState.completed else EvState.failed) ∧
    (wait_for_event { resolveTime := now + timeout + 1 + d, success := success }
        (now + timeout + 1 + d + u) 0).1 = true := by
  refine ⟨?_, ?_, ?_⟩
  · show (if now + timeout + 1 + d ≤ now + timeout
        then ((true : Bool), max now (now + timeout + 1 + d))
        else ((false : Bool), now + timeout))
        = (false, now + timeout)
    rw [if_neg (by omega)]
  · show (if now + timeout + 1 + d ≤ now + timeout + 1 + d + u
        then (if success then EvState.completed else EvState.failed)
        else EvState.pending)
        = (if success then EvState.completed else EvState.failed)
    rw [if_pos (by omega)]
  · show (if now + timeout + 1 + d ≤ now + timeout + 1 + d + u + 0
        then ((true : Bool), max (now + timeout + 1 + d + u) (now + timeout + 1 + d))
        else ((false : Bool), now + timeout + 1 + d + u + 0)).1 = true
    rw [if_pos (by omega)]

/-- C9: evaluation of the binding surface at the conflicting names: the
__all__ export list of etrt/__init__.py declares EventId, StreamId,
DeviceId and KernelId as public handle types, yet per
test_types.test_id_types (and spec section 9) the module defines no
attributes of those names — the ids are plain integers at the boundary —
so the package's declared export list contradicts its own test suite. -/
theorem id_wrapper_names_conflict :
    (∀ n ∈ idWrapperNames, n ∈ etrt_all) ∧
    (∀ n ∈ idWrapperNames, n ∉ etrtModuleAttrs) := by
  decide

/-- C10: a StreamError constructed with no arguments carries error_code
UNKNOWN, and a StreamError constructed with an explicit DeviceErrorCode
stores exactly that code. -/
theorem stream_error_default_code :
    mkStreamError.error_code = DeviceErrorCode.UNKNOWN ∧
    ∀ c : DeviceErrorCode, (mkStreamErrorWithCode c).error_code = c :=
  ⟨rfl, fun _ => rfl⟩

end Etrt
